import Mathlib

/-!
# Verification of the `chromatic` color utility

Shallow embedding of `src/color.rs` (the same `Color` implementation is
duplicated verbatim in `src/main.rs`).  The Rust code computes with `f32`;
here every `f32` arithmetic operation is modelled by exact rational
arithmetic, with Rust's truncating remainder (`%`), half-away-from-zero
rounding (`f32::round`) and saturating `as u8` cast made explicit.  Strings
are modelled as lists of Unicode scalar values together with their UTF-8
byte lengths, so that the byte-based length check and byte-range slicing of
`Color::from_hex` (which can fault on a non-character boundary) are
represented faithfully; a slicing fault (Rust panic) is modelled as `none`.
-/

/-- Truncation toward zero, the rounding used by Rust's `%` on floats
(`x % y = x - y * trunc(x / y)`). -/
def qtrunc (q : ℚ) : ℤ := if 0 ≤ q then ⌊q⌋ else -⌊-q⌋

/-- Rust's `%` on `f32` values (truncated remainder), for finite values. -/
def rustRem (a b : ℚ) : ℚ := a - b * (qtrunc (a / b) : ℚ)

/-- Rust's `f32::round`: round half away from zero. -/
def rustRound (q : ℚ) : ℤ := if 0 ≤ q then ⌊q + 1/2⌋ else -⌊-q + 1/2⌋

/-- Rust's saturating float-to-`u8` cast, applied after `.round()` (so the
argument is already an integer): clamp into `[0, 255]`. -/
def castU8 (z : ℤ) : ℕ := (min 255 (max 0 z)).toNat

/-- The `Color` struct of `color.rs`: three `u8` channels.  Channels are
modelled as natural numbers; every constructor of the program produces
values `≤ 255`, and theorems quantifying over arbitrary colors carry that
bound as a hypothesis. -/
structure Color where
  r : ℕ
  g : ℕ
  b : ℕ
deriving DecidableEq, Repr

/-- Step `let c = v * s;` of `Color::from_hsv`. -/
def hsvChroma (s v : ℚ) : ℚ := v * s

/-- Step `let x = c * (1.0 - ((h / 60.0) % 2.0 - 1.0).abs());` of `Color::from_hsv`. -/
def hsvX (h s v : ℚ) : ℚ := hsvChroma s v * (1 - |rustRem (h / 60) 2 - 1|)

/-- The `match h { ... }` sextant dispatch of `Color::from_hsv`.  Rust tries
the inclusive range patterns in order, so the dispatch is a chain of
conditionals; any value matched by no range (negative, above 360) falls to
the `_ => (0.0, 0.0, 0.0)` arm. -/
def sextant (h c x : ℚ) : ℚ × ℚ × ℚ :=
  if 0 ≤ h ∧ h ≤ 60 then (c, x, 0)
  else if 60 ≤ h ∧ h ≤ 120 then (x, c, 0)
  else if 120 ≤ h ∧ h ≤ 180 then (0, c, x)
  else if 180 ≤ h ∧ h ≤ 240 then (0, x, c)
  else if 240 ≤ h ∧ h ≤ 300 then (x, 0, c)
  else if 300 ≤ h ∧ h ≤ 360 then (c, 0, x)
  else (0, 0, 0)

/-- Rust `Color::from_hsv` of `color.rs`. -/
def from_hsv (h s v : ℚ) : Color :=
  let c := hsvChroma s v
  let x := hsvX h s v
  let m := v - c
  let p := sextant h c x
  { r := castU8 (rustRound ((p.1 + m) * 255)),
    g := castU8 (rustRound ((p.2.1 + m) * 255)),
    b := castU8 (rustRound ((p.2.2 + m) * 255)) }

/-- Rust `Color::to_hsv` of `color.rs`.  `r.max(g).max(b)` and `r.min(g).min(b)`
are the `f32` max/min, which for non-NaN arguments agree with the ordinary
ones. -/
def to_hsv (col : Color) : ℚ × ℚ × ℚ :=
  let r : ℚ := (col.r : ℚ) / 255
  let g : ℚ := (col.g : ℚ) / 255
  let b : ℚ := (col.b : ℚ) / 255
  let mx := max (max r g) b
  let mn := min (min r g) b
  let d := mx - mn
  let h : ℚ :=
    if d = 0 then 0
    else if mx = r then 60 * rustRem ((g - b) / d) 6
    else if mx = g then 60 * ((b - r) / d + 2)
    else 60 * ((r - g) / d + 4)
  let s : ℚ := if mx = 0 then 0 else d / mx
  (|h|, s, mx)

/-- Rust `Color::from_rgb` of `color.rs`. -/
def from_rgb (r g b : ℕ) : Color := ⟨r, g, b⟩

/-- Function `rgb_complement` of `color.rs`: each `u8` channel becomes `255 - channel`. -/
def rgb_complement (col : Color) : Color :=
  ⟨255 - col.r, 255 - col.g, 255 - col.b⟩

/-- Function `hsv_complement` of `color.rs`: rotate hue by 180° modulo 360 and convert
back. -/
def hsv_complement (col : Color) : Color :=
  let t := to_hsv col
  from_hsv (rustRem (t.1 + 180) 360) t.2.1 t.2.2

/-- UTF-8 encoded length of one character (Rust `char::len_utf8`). -/
def utf8Len (c : Char) : ℕ :=
  if c.toNat < 0x80 then 1
  else if c.toNat < 0x800 then 2
  else if c.toNat < 0x10000 then 3
  else 4

/-- Rust `str::len`: length in bytes, not characters. -/
def byteLen (s : List Char) : ℕ := (s.map utf8Len).sum

/-- Rust `str::trim_start_matches('#')`: repeatedly removes every leading `'#'`. -/
def stripHashes : List Char → List Char
  | [] => []
  | c :: t => if c = '#' then stripHashes t else c :: t

/-- Advance by `n` bytes from the start of a string; `none` when byte index
`n` is past the end or not on a character boundary (a Rust slice panic). -/
def dropBytes : List Char → ℕ → Option (List Char)
  | s, 0 => some s
  | [], _ + 1 => none
  | c :: t, n + 1 =>
    if utf8Len c ≤ n + 1 then dropBytes t (n + 1 - utf8Len c) else none

/-- Take `n` bytes from the start of a string; `none` when byte index `n` is
past the end or not on a character boundary (a Rust slice panic). -/
def takeBytes : List Char → ℕ → Option (List Char)
  | _, 0 => some []
  | [], _ + 1 => none
  | c :: t, n + 1 =>
    if utf8Len c ≤ n + 1 then (takeBytes t (n + 1 - utf8Len c)).map (c :: ·) else none

/-- Rust byte-range slicing `&s[a..b]` (with `a ≤ b`); `none` models the
panic on an out-of-range or non-character-boundary index. -/
def sliceBytes (s : List Char) (a b : ℕ) : Option (List Char) :=
  match dropBytes s a with
  | none => none
  | some t => takeBytes t (b - a)

/-- Value of one base-16 digit, as accepted by `u8::from_str_radix(_, 16)`:
`0-9`, `a-f`, `A-F`. -/
def hexDigitVal (c : Char) : Option ℕ :=
  if '0' ≤ c ∧ c ≤ '9' then some (c.toNat - 48)
  else if 'a' ≤ c ∧ c ≤ 'f' then some (c.toNat - 87)
  else if 'A' ≤ c ∧ c ≤ 'F' then some (c.toNat - 55)
  else none

/-- Digit-accumulation loop of `u8::from_str_radix` for a non-negative
number: each step multiplies by the radix and adds the next digit, failing
on a non-digit or on `u8` overflow. -/
def hexAccum : List Char → ℕ → Option ℕ
  | [], acc => some acc
  | c :: t, acc =>
    match hexDigitVal c with
    | none => none
    | some d => if acc * 16 + d ≤ 255 then hexAccum t (acc * 16 + d) else none

/-- Rust `u8::from_str_radix(s, 16)` for the unsigned target `u8`: an
optional single leading `'+'` sign followed by one or more base-16 digits,
with `u8` overflow checking; `none` is `Err`.  A leading `'-'` sign is only
accepted for signed target types, so for `u8` it is an immediate
`InvalidDigit` error. -/
def fromStrRadix16 (s : List Char) : Option ℕ :=
  match s with
  | [] => none
  | c :: t =>
    if c = '+' then (if t = [] then none else hexAccum t 0)
    else if c = '-' then none
    else hexAccum (c :: t) 0

/-- Rust `Color::from_hex` of `color.rs`.  `none` models a Rust panic (byte-range
slicing away from a character boundary), `some (Except.error _)` a returned
`Err`, `some (Except.ok _)` success.  Slices are taken and parsed in the
source's order, since an early `Err` return prevents a later panic. -/
def from_hex (s : List Char) : Option (Except String Color) :=
  let hex := stripHashes s
  if byteLen hex ≠ 6 then some (Except.error "Hex code must be 6 characters long")
  else
    match sliceBytes hex 0 2 with
    | none => none
    | some s1 =>
      match fromStrRadix16 s1 with
      | none => some (Except.error "Invalid hex code")
      | some r =>
        match sliceBytes hex 2 4 with
        | none => none
        | some s2 =>
          match fromStrRadix16 s2 with
          | none => some (Except.error "Invalid hex code")
          | some g =>
            match sliceBytes hex 4 6 with
            | none => none
            | some s3 =>
              match fromStrRadix16 s3 with
              | none => some (Except.error "Invalid hex code")
              | some b => some (Except.ok ⟨r, g, b⟩)

/-- One uppercase digit of the `{:02X}` format. -/
def hexDigitChar (n : ℕ) : Char :=
  if n < 10 then Char.ofNat (48 + n) else Char.ofNat (55 + n)

/-- Format `{:02X}`: a byte as exactly two uppercase, zero-padded hex digits. -/
def hexPair (n : ℕ) : List Char := [hexDigitChar (n / 16), hexDigitChar (n % 16)]

/-- Rust `Color::to_hex` of `color.rs`: `#RRGGBB`. -/
def to_hex (col : Color) : List Char :=
  '#' :: (hexPair col.r ++ hexPair col.g ++ hexPair col.b)

/-- Modelled from the claim's words "stripping an optional leading `'#'`
prefix": removes at most one leading `'#'`.  Used only to state what the
claim (as written) demands of an input, for comparison with the source's
`trim_start_matches`, which strips every leading `'#'`. -/
def stripOneHash : List Char → List Char
  | '#' :: t => t
  | s => s

/-- Follows the spec's wording for `from_hex`, amended to strip every
leading `'#'` (as `trim_start_matches` does): the stripped payload must be
exactly six characters, parsed as three base-16 pairs red, green, blue.
For ASCII payloads (characters = bytes) this is exactly what the source
computes. -/
def hexSpec (s : List Char) : Except String Color :=
  match stripHashes s with
  | [c1, c2, c3, c4, c5, c6] =>
    match fromStrRadix16 [c1, c2], fromStrRadix16 [c3, c4], fromStrRadix16 [c5, c6] with
    | some r, some g, some b => Except.ok ⟨r, g, b⟩
    | _, _, _ => Except.error "Invalid hex code"
  | _ => Except.error "Hex code must be 6 characters long"

/-- An `f32` value: NaN, a signed infinity (`inf true` = `+∞`), or a finite
value, represented exactly as a rational.  The sign of a floating zero is
not tracked; no operation reached by `from_hsv` distinguishes `-0.0` from
`0.0` in its outcome. -/
inductive F where
  | nan : F
  | inf : Bool → F
  | fin : ℚ → F
deriving DecidableEq, Repr

/-- IEEE-754 negation. -/
def fneg : F → F
  | .nan => .nan
  | .inf s => .inf (!s)
  | .fin q => .fin (-q)

/-- IEEE-754 addition (finite arithmetic taken exact). -/
def fadd : F → F → F
  | .nan, _ => .nan
  | _, .nan => .nan
  | .inf s, .inf t => if s = t then .inf s else .nan
  | .inf s, .fin _ => .inf s
  | .fin _, .inf t => .inf t
  | .fin a, .fin b => .fin (a + b)

/-- IEEE-754 subtraction. -/
def fsub (a b : F) : F := fadd a (fneg b)

/-- IEEE-754 multiplication; `∞ × 0 = NaN`. -/
def fmul : F → F → F
  | .nan, _ => .nan
  | _, .nan => .nan
  | .inf s, .inf t => .inf (s == t)
  | .inf s, .fin q => if q = 0 then .nan else .inf (s == decide (0 < q))
  | .fin q, .inf s => if q = 0 then .nan else .inf (s == decide (0 < q))
  | .fin a, .fin b => .fin (a * b)

/-- IEEE-754 division; `∞ / ∞ = NaN`, `x / ∞ = 0`, `x / 0 = ±∞` for
nonzero finite `x`. -/
def fdiv : F → F → F
  | .nan, _ => .nan
  | _, .nan => .nan
  | .inf _, .inf _ => .nan
  | .inf s, .fin q => .inf (s == decide (0 ≤ q))
  | .fin _, .inf _ => .fin 0
  | .fin a, .fin b =>
    if b = 0 then (if a = 0 then .nan else .inf (decide (0 < a))) else .fin (a / b)

/-- Rust `%` on `f32` (fmod): NaN when the dividend is NaN or infinite or
the divisor is NaN or zero; a finite dividend is returned unchanged for an
infinite divisor. -/
def frem : F → F → F
  | .nan, _ => .nan
  | _, .nan => .nan
  | .inf _, _ => .nan
  | .fin a, .inf _ => .fin a
  | .fin a, .fin b => if b = 0 then .nan else .fin (rustRem a b)

/-- Rust `f32::abs`. -/
def fabs : F → F
  | .nan => .nan
  | .inf _ => .inf true
  | .fin q => .fin |q|

/-- Rust `f32::round` (half away from zero). -/
def fround : F → F
  | .nan => .nan
  | .inf s => .inf s
  | .fin q => .fin (rustRound q)

/-- Comparison `<=` on `f32` (`PartialOrd`): false whenever either side is NaN.  Rust's
inclusive range pattern `lo..=hi` matches `h` exactly when
`fle lo h && fle h hi`. -/
def fle : F → F → Bool
  | .nan, _ => false
  | _, .nan => false
  | .inf s, .inf t => !s || t
  | .inf s, .fin _ => !s
  | .fin _, .inf t => t
  | .fin a, .fin b => decide (a ≤ b)

/-- Rust's saturating `as u8` cast on a full `f32` value: NaN to 0, `-∞` to
0, `+∞` to 255, a finite value truncated toward zero and clamped into
`[0, 255]`. -/
def castU8F : F → ℕ
  | .nan => 0
  | .inf s => if s then 255 else 0
  | .fin q => (min 255 (max 0 (qtrunc q))).toNat

/-- Rust `Color::from_hsv` over the full `f32` domain, NaN and infinities
included (the rational model `from_hsv` covers the finite case).  The match
arms are tried in order with `PartialOrd` comparisons, so NaN falls through
to the `(0,0,0)` arm. -/
def from_hsvF (h s v : F) : Color :=
  let c := fmul v s
  let x := fmul c (fsub (.fin 1) (fabs (fsub (frem (fdiv h (.fin 60)) (.fin 2)) (.fin 1))))
  let m := fsub v c
  let p :=
    if fle (.fin 0) h && fle h (.fin 60) then (c, x, F.fin 0)
    else if fle (.fin 60) h && fle h (.fin 120) then (x, c, F.fin 0)
    else if fle (.fin 120) h && fle h (.fin 180) then (F.fin 0, c, x)
    else if fle (.fin 180) h && fle h (.fin 240) then (F.fin 0, x, c)
    else if fle (.fin 240) h && fle h (.fin 300) then (x, F.fin 0, c)
    else if fle (.fin 300) h && fle h (.fin 360) then (c, F.fin 0, x)
    else (F.fin 0, F.fin 0, F.fin 0)
  { r := castU8F (fround (fmul (fadd p.1 m) (.fin 255))),
    g := castU8F (fround (fmul (fadd p.2.1 m) (.fin 255))),
    b := castU8F (fround (fmul (fadd p.2.2 m) (.fin 255))) }

instance : DecidableEq (Except String Color) := fun a b =>
  match a, b with
  | .ok x, .ok y => if h : x = y then .isTrue (by rw [h]) else .isFalse (by simp [h])
  | .error x, .error y => if h : x = y then .isTrue (by rw [h]) else .isFalse (by simp [h])
  | .ok _, .error _ => .isFalse (by simp)
  | .error _, .ok _ => .isFalse (by simp)

lemma qtrunc_eq_of_nonneg (q : ℚ) (z : ℤ) (h0 : 0 ≤ q) (h1 : (z : ℚ) ≤ q)
    (h2 : q < z + 1) : qtrunc q = z := by
  rw [qtrunc, if_pos h0, Int.floor_eq_iff]
  exact ⟨h1, h2⟩

lemma qtrunc_eq_of_neg (q : ℚ) (z : ℤ) (h0 : q < 0) (h1 : q ≤ (z : ℚ))
    (h2 : (z : ℚ) - 1 < q) : qtrunc q = z := by
  rw [qtrunc, if_neg (not_le.mpr h0)]
  have hz : ⌊-q⌋ = -z := by
    rw [Int.floor_eq_iff]
    push_cast
    constructor <;> linarith
  rw [hz]
  omega

lemma rustRound_eq_of_nonneg (q : ℚ) (z : ℤ) (h0 : 0 ≤ q) (h1 : (z : ℚ) ≤ q + 1/2)
    (h2 : q + 1/2 < z + 1) : rustRound q = z := by
  rw [rustRound, if_pos h0, Int.floor_eq_iff]
  exact ⟨h1, h2⟩

lemma rustRem_eval (a b r : ℚ) (k : ℤ) (hk : qtrunc (a / b) = k) (hr : a - b * k = r) :
    rustRem a b = r := by
  rw [rustRem, hk, hr]

lemma chroma_one : hsvChroma 1 1 = 1 := by
  unfold hsvChroma
  norm_num

lemma to_hsv_red : to_hsv ⟨255, 0, 0⟩ = (0, 1, 1) := by
  simp only [to_hsv]
  norm_num
  rw [rustRem_eval 0 6 0 0
    (qtrunc_eq_of_nonneg (0/6 : ℚ) 0 (by norm_num) (by norm_num) (by norm_num)) (by norm_num)]

lemma to_hsv_magenta : to_hsv ⟨255, 0, 255⟩ = (60, 1, 1) := by
  have hrem : rustRem (-1 : ℚ) 6 = -1 := by
    rw [rustRem_eval (-1) 6 (-1) 0
      (qtrunc_eq_of_neg ((-1) / 6 : ℚ) 0 (by norm_num) (by norm_num) (by norm_num)) (by norm_num)]
  simp only [to_hsv]
  norm_num [hrem]

lemma to_hsv_green : to_hsv ⟨0, 255, 0⟩ = (120, 1, 1) := by
  simp only [to_hsv]
  norm_num

lemma from_hsv_at_60 : from_hsv 60 1 1 = ⟨255, 255, 0⟩ := by
  have hx : hsvX 60 1 1 = 1 := by
    unfold hsvX hsvChroma
    rw [show (60 : ℚ) / 60 = 1 by norm_num,
      rustRem_eval 1 2 1 0
        (qtrunc_eq_of_nonneg (1/2 : ℚ) 0 (by norm_num) (by norm_num) (by norm_num)) (by norm_num)]
    norm_num
  have hs : sextant 60 (hsvChroma 1 1) (hsvX 60 1 1) = (1, 1, 0) := by
    rw [chroma_one, hx]
    unfold sextant
    norm_num
  simp only [from_hsv]
  rw [hs]
  simp only [chroma_one]
  norm_num
  rw [rustRound_eq_of_nonneg 255 255 (by norm_num) (by norm_num) (by norm_num),
    rustRound_eq_of_nonneg 0 0 (by norm_num) (by norm_num) (by norm_num)]
  decide

lemma from_hsv_at_180 : from_hsv 180 1 1 = ⟨0, 255, 255⟩ := by
  have hx : hsvX 180 1 1 = 1 := by
    unfold hsvX hsvChroma
    rw [show (180 : ℚ) / 60 = 3 by norm_num,
      rustRem_eval 3 2 1 1
        (qtrunc_eq_of_nonneg (3/2 : ℚ) 1 (by norm_num) (by norm_num) (by norm_num)) (by norm_num)]
    norm_num
  have hs : sextant 180 (hsvChroma 1 1) (hsvX 180 1 1) = (0, 1, 1) := by
    rw [chroma_one, hx]
    unfold sextant
    norm_num
  simp only [from_hsv]
  rw [hs]
  simp only [chroma_one]
  norm_num
  rw [rustRound_eq_of_nonneg 255 255 (by norm_num) (by norm_num) (by norm_num),
    rustRound_eq_of_nonneg 0 0 (by norm_num) (by norm_num) (by norm_num)]
  decide

lemma from_hsv_at_240 : from_hsv 240 1 1 = ⟨0, 0, 255⟩ := by
  have hx : hsvX 240 1 1 = 0 := by
    unfold hsvX hsvChroma
    rw [show (240 : ℚ) / 60 = 4 by norm_num,
      rustRem_eval 4 2 0 2
        (qtrunc_eq_of_nonneg (4/2 : ℚ) 2 (by norm_num) (by norm_num) (by norm_num)) (by norm_num)]
    norm_num
  have hs : sextant 240 (hsvChroma 1 1) (hsvX 240 1 1) = (0, 0, 1) := by
    rw [chroma_one, hx]
    unfold sextant
    norm_num
  simp only [from_hsv]
  rw [hs]
  simp only [chroma_one]
  norm_num
  rw [rustRound_eq_of_nonneg 255 255 (by norm_num) (by norm_num) (by norm_num),
    rustRound_eq_of_nonneg 0 0 (by norm_num) (by norm_num) (by norm_num)]
  decide

lemma from_hsv_at_300 : from_hsv 300 1 1 = ⟨255, 0, 255⟩ := by
  have hx : hsvX 300 1 1 = 1 := by
    unfold hsvX hsvChroma
    rw [show (300 : ℚ) / 60 = 5 by norm_num,
      rustRem_eval 5 2 1 2
        (qtrunc_eq_of_nonneg (5/2 : ℚ) 2 (by norm_num) (by norm_num) (by norm_num)) (by norm_num)]
    norm_num
  have hs : sextant 300 (hsvChroma 1 1) (hsvX 300 1 1) = (1, 0, 1) := by
    rw [chroma_one, hx]
    unfold sextant
    norm_num
  simp only [from_hsv]
  rw [hs]
  simp only [chroma_one]
  norm_num
  rw [rustRound_eq_of_nonneg 255 255 (by norm_num) (by norm_num) (by norm_num),
    rustRound_eq_of_nonneg 0 0 (by norm_num) (by norm_num) (by norm_num)]
  decide

lemma utf8Len_one {c : Char} (h : c.toNat < 128) : utf8Len c = 1 := by
  unfold utf8Len
  rw [if_pos h]

lemma mem_stripHashes {c : Char} : ∀ {s : List Char}, c ∈ stripHashes s → c ∈ s
  | [], h => h
  | a :: t, h => by
    by_cases ha : a = '#'
    · simp only [stripHashes, if_pos ha] at h
      exact List.mem_cons_of_mem a (mem_stripHashes h)
    · simpa only [stripHashes, if_neg ha] using h

lemma byteLen_ascii : ∀ {s : List Char}, (∀ c ∈ s, c.toNat < 128) → byteLen s = s.length
  | [], _ => rfl
  | a :: t, h => by
    have ha : utf8Len a = 1 := utf8Len_one (h a (List.mem_cons_self a t))
    have ht : byteLen t = t.length := byteLen_ascii fun c hc => h c (List.mem_cons_of_mem a hc)
    simp [byteLen, ha] at ht ⊢
    omega

lemma slice6 {a b c d e f : Char} (h1 : utf8Len a = 1) (h2 : utf8Len b = 1)
    (h3 : utf8Len c = 1) (h4 : utf8Len d = 1) (h5 : utf8Len e = 1) (h6 : utf8Len f = 1) :
    sliceBytes [a, b, c, d, e, f] 0 2 = some [a, b] ∧
    sliceBytes [a, b, c, d, e, f] 2 4 = some [c, d] ∧
    sliceBytes [a, b, c, d, e, f] 4 6 = some [e, f] := by
  refine ⟨?_, ?_, ?_⟩ <;>
    simp [sliceBytes, dropBytes, takeBytes, h1, h2, h3, h4, h5, h6]

lemma from_hex_ascii {s : List Char} (hs : ∀ c ∈ s, c.toNat < 128) :
    from_hex s = some (hexSpec s) := by
  have hta : ∀ c ∈ stripHashes s, c.toNat < 128 := fun c hc => hs c (mem_stripHashes hc)
  have hbl : byteLen (stripHashes s) = (stripHashes s).length := byteLen_ascii hta
  simp only [from_hex, hexSpec]
  rcases ht : stripHashes s with _ | ⟨a, _ | ⟨b, _ | ⟨c, _ | ⟨d, _ | ⟨e, _ | ⟨f, _ | ⟨g, rest⟩⟩⟩⟩⟩⟩⟩ <;>
    rw [ht] at hbl hta <;>
    simp only [hbl]
  · norm_num
  · norm_num
  · norm_num
  · norm_num
  · norm_num
  · norm_num
  · have h1 : utf8Len a = 1 := utf8Len_one (hta a (by simp))
    have h2 : utf8Len b = 1 := utf8Len_one (hta b (by simp))
    have h3 : utf8Len c = 1 := utf8Len_one (hta c (by simp))
    have h4 : utf8Len d = 1 := utf8Len_one (hta d (by simp))
    have h5 : utf8Len e = 1 := utf8Len_one (hta e (by simp))
    have h6 : utf8Len f = 1 := utf8Len_one (hta f (by simp))
    obtain ⟨s1, s2, s3⟩ := slice6 h1 h2 h3 h4 h5 h6
    rw [if_neg (by norm_num), s1, s2, s3]
    cases hr : fromStrRadix16 [a, b] <;> cases hg : fromStrRadix16 [c, d] <;>
      cases hb2 : fromStrRadix16 [e, f] <;> simp [hr, hg, hb2]
  · rw [if_pos (by simp)]

set_option maxRecDepth 8192 in
lemma hexDigit_props : ∀ d : Fin 16,
    (hexDigitChar d.val).toNat < 128 ∧ hexDigitChar d.val ≠ '#' := by decide

set_option maxRecDepth 8192 in
lemma hexPair_parse : ∀ n : Fin 256,
    fromStrRadix16 [hexDigitChar (n.val / 16), hexDigitChar (n.val % 16)] = some n.val := by
  decide

lemma castU8F_le (x : F) : castU8F x ≤ 255 := by
  cases x with
  | nan => decide
  | inf s => cases s <;> simp [castU8F]
  | fin q =>
    show (min 255 (max 0 (qtrunc q))).toNat ≤ 255
    omega

/-- Claim C1, counterexample: at hue 400 (outside `[0, 360]`) with
saturation 0 and value 1, `from_hsv` returns white, not the black color the
claim promises for every out-of-range hue: the fallback arm only zeroes the
primed components, and `m = v - v*s` is still added to every channel. -/
theorem from_hsv_hue400_white :
    from_hsv 400 0 1 = ⟨255, 255, 255⟩ ∧ from_hsv 400 0 1 ≠ ⟨0, 0, 0⟩ := by
  have hc : hsvChroma 0 1 = 0 := by unfold hsvChroma; norm_num
  have hs : sextant 400 (hsvChroma 0 1) (hsvX 400 0 1) = (0, 0, 0) := by
    unfold sextant
    norm_num
  have h1 : from_hsv 400 0 1 = ⟨255, 255, 255⟩ := by
    simp only [from_hsv]
    rw [hs]
    simp only [hc]
    norm_num
    rw [rustRound_eq_of_nonneg 255 255 (by norm_num) (by norm_num) (by norm_num)]
    rfl
  exact ⟨h1, by rw [h1]; decide⟩

/-- Claim C1, amended: for every hue outside `[0, 360]` the sextant dispatch
falls to `(0, 0, 0)`, so all three output channels are equal, each being
`round((v - v*s) * 255)` clamped into `[0, 255]` — a gray of brightness
`v*(1 - s)`, which is black only when that product rounds to zero (e.g.
`s = 1` or `v = 0`), not for all `s` and `v`. -/
theorem from_hsv_out_of_range_gray (h s v : ℚ) (hout : h < 0 ∨ 360 < h) :
    from_hsv h s v = ⟨castU8 (rustRound ((v - v * s) * 255)),
                      castU8 (rustRound ((v - v * s) * 255)),
                      castU8 (rustRound ((v - v * s) * 255))⟩ := by
  have hc : ∀ lo hi : ℚ, 0 ≤ lo → hi ≤ 360 → ¬(lo ≤ h ∧ h ≤ hi) := by
    rintro lo hi hlo hhi ⟨ha, hb⟩
    rcases hout with h1 | h1 <;> linarith
  have hsx : sextant h (hsvChroma s v) (hsvX h s v) = (0, 0, 0) := by
    unfold sextant
    rw [if_neg (hc 0 60 (by norm_num) (by norm_num)),
      if_neg (hc 60 120 (by norm_num) (by norm_num)),
      if_neg (hc 120 180 (by norm_num) (by norm_num)),
      if_neg (hc 180 240 (by norm_num) (by norm_num)),
      if_neg (hc 240 300 (by norm_num) (by norm_num)),
      if_neg (hc 300 360 (by norm_num) (by norm_num))]
  simp only [from_hsv]
  rw [hsx]
  simp only [hsvChroma]
  norm_num

/-- Witness for the amended claim C1 at the concrete out-of-range input
`(h, s, v) = (400, 0, 1)`. -/
theorem from_hsv_out_of_range_gray_witness :
    ((400 : ℚ) < 0 ∨ (360 : ℚ) < 400) ∧
    from_hsv 400 0 1 = ⟨castU8 (rustRound ((1 - 1 * 0) * 255)),
                        castU8 (rustRound ((1 - 1 * 0) * 255)),
                        castU8 (rustRound ((1 - 1 * 0) * 255))⟩ :=
  ⟨Or.inr (by norm_num), from_hsv_out_of_range_gray 400 0 1 (Or.inr (by norm_num))⟩

/-- Claim C2, evaluation at the failing input: the RGB→HSV→RGB round trip of
magenta `(255, 0, 255)` yields yellow `(255, 255, 0)` — the green and blue
channels are off by 255, far beyond the claimed ±1 tolerance.  The cause is
`to_hsv` taking `h.abs()` on the negative hue `-60°` (correct would be
adding 360°), which reflects the hue to `60°` and swaps the roles of green
and blue.  Every `f32` value along this computation path is exactly
representable, so the exact-rational model agrees with the Rust `f32` run. -/
theorem hsv_roundtrip_magenta :
    from_hsv (to_hsv (from_rgb 255 0 255)).1 (to_hsv (from_rgb 255 0 255)).2.1
      (to_hsv (from_rgb 255 0 255)).2.2 = ⟨255, 255, 0⟩ := by
  show from_hsv (to_hsv ⟨255, 0, 255⟩).1 (to_hsv ⟨255, 0, 255⟩).2.1
      (to_hsv ⟨255, 0, 255⟩).2.2 = ⟨255, 255, 0⟩
  rw [to_hsv_magenta]
  exact from_hsv_at_60

/-- Claim C3, counterexample: on `"##000000"` the claim (stripping at most
one optional leading `'#'`) demands an error, because the remainder
`"#000000"` has 7 characters; but `trim_start_matches('#')` strips every
leading `'#'`, so the source parses `"000000"` and succeeds with black. -/
theorem from_hex_double_hash :
    (stripOneHash ("##000000".data)).length ≠ 6 ∧
    from_hex ("##000000".data) = some (Except.ok ⟨0, 0, 0⟩) := by decide

/-- Claim C3, amended: for every ASCII input string, `from_hex` behaves
exactly as the spec's parse with "all leading `'#'` characters" in place of
"an optional leading `'#'` prefix": after stripping every leading `'#'`, it
errors iff the remainder is not exactly 6 characters or some 2-character
pair is rejected by the base-16 byte parser, and on success parses the
three pairs as red, green, blue in that order (`hexSpec` is that parse).
The ASCII restriction is needed because on some non-ASCII payloads the
source's byte slicing faults instead of returning an error. -/
theorem from_hex_ascii_matches_spec (s : List Char) (hs : ∀ c ∈ s, c.toNat < 128) :
    from_hex s = some (hexSpec s) :=
  from_hex_ascii hs

/-- Witness for the amended claim C3 on the concrete input `"#FF5733"`. -/
theorem from_hex_ascii_matches_spec_witness :
    from_hex ("#FF5733".data) = some (hexSpec ("#FF5733".data)) ∧
    hexSpec ("#FF5733".data) = Except.ok ⟨255, 87, 51⟩ :=
  ⟨from_hex_ascii_matches_spec _ (by decide), by decide⟩

/-- Claim C4 (confirmed): the HEX round trip is exact — for every RGB triple
in `[0, 255]^3`, `from_hex (to_hex (from_rgb r g b))` succeeds with exactly
`from_rgb r g b`. -/
theorem hex_roundtrip_exact (r g b : ℕ) (hr : r ≤ 255) (hg : g ≤ 255) (hb : b ≤ 255) :
    from_hex (to_hex (from_rgb r g b)) = some (Except.ok (from_rgb r g b)) := by
  have p1 := hexDigit_props ⟨r / 16, by omega⟩
  have p2 := hexDigit_props ⟨r % 16, by omega⟩
  have p3 := hexDigit_props ⟨g / 16, by omega⟩
  have p4 := hexDigit_props ⟨g % 16, by omega⟩
  have p5 := hexDigit_props ⟨b / 16, by omega⟩
  have p6 := hexDigit_props ⟨b % 16, by omega⟩
  simp only [to_hex, from_rgb, hexPair, List.cons_append, List.nil_append] at *
  have ascii : ∀ c ∈ ('#' :: [hexDigitChar (r / 16), hexDigitChar (r % 16),
      hexDigitChar (g / 16), hexDigitChar (g % 16),
      hexDigitChar (b / 16), hexDigitChar (b % 16)]), c.toNat < 128 := by
    intro c hc
    simp only [List.mem_cons, List.mem_singleton] at hc
    rcases hc with rfl | rfl | rfl | rfl | rfl | rfl | rfl | hc
    · decide
    · exact p1.1
    · exact p2.1
    · exact p3.1
    · exact p4.1
    · exact p5.1
    · exact p6.1
    · exact absurd hc (List.not_mem_nil c)
  rw [from_hex_ascii ascii]
  simp only [hexSpec]
  rw [show stripHashes ('#' :: [hexDigitChar (r / 16), hexDigitChar (r % 16),
      hexDigitChar (g / 16), hexDigitChar (g % 16),
      hexDigitChar (b / 16), hexDigitChar (b % 16)]) =
      [hexDigitChar (r / 16), hexDigitChar (r % 16),
      hexDigitChar (g / 16), hexDigitChar (g % 16),
      hexDigitChar (b / 16), hexDigitChar (b % 16)] by
    simp [stripHashes, p1.2]]
  have e1 := hexPair_parse ⟨r, by omega⟩
  have e2 := hexPair_parse ⟨g, by omega⟩
  have e3 := hexPair_parse ⟨b, by omega⟩
  simp only [] at e1 e2 e3
  simp [e1, e2, e3]

/-- Witness for claim C4 at the concrete triple `(255, 87, 51)`. -/
theorem hex_roundtrip_exact_witness :
    from_hex (to_hex (from_rgb 255 87 51)) = some (Except.ok (from_rgb 255 87 51)) :=
  hex_roundtrip_exact 255 87 51 (by norm_num) (by norm_num) (by norm_num)

/-- Claim C5 (confirmed): `rgb_complement` is an involution on colors with
`u8` channels — each channel maps to `255 - channel`, with no underflow
since channels are at most 255, and applying it twice is the identity. -/
theorem rgb_complement_involution (c : Color) (h1 : c.r ≤ 255) (h2 : c.g ≤ 255)
    (h3 : c.b ≤ 255) : rgb_complement (rgb_complement c) = c := by
  cases c
  simp only [rgb_complement, Color.mk.injEq] at *
  omega

/-- Witness for claim C5 at the concrete color `(12, 200, 255)`. -/
theorem rgb_complement_involution_witness :
    rgb_complement (rgb_complement ⟨12, 200, 255⟩) = ⟨12, 200, 255⟩ :=
  rgb_complement_involution ⟨12, 200, 255⟩ (by norm_num) (by norm_num) (by norm_num)

/-- Claim C6, evaluation at the failing input: applying `hsv_complement`
twice to green `(0, 255, 0)` yields blue `(0, 0, 255)` — off by 255 in two
channels, far beyond the claimed ±1.  The first complement gives magenta
`(255, 0, 255)`; converting magenta back to HSV hits the `h.abs()` slip in
`to_hsv` (hue 60° instead of 300°), so the second rotation lands on 240°
(blue) instead of returning to 120° (green).  Every `f32` value along this
path is exactly representable, so the exact-rational model agrees with the
Rust `f32` run. -/
theorem hsv_complement_twice_green :
    hsv_complement (hsv_complement (from_rgb 0 255 0)) = ⟨0, 0, 255⟩ := by
  have step1 : hsv_complement (from_rgb 0 255 0) = ⟨255, 0, 255⟩ := by
    show from_hsv (rustRem ((to_hsv ⟨0, 255, 0⟩).1 + 180) 360) (to_hsv ⟨0, 255, 0⟩).2.1
        (to_hsv ⟨0, 255, 0⟩).2.2 = ⟨255, 0, 255⟩
    rw [to_hsv_green]
    show from_hsv (rustRem ((120 : ℚ) + 180) 360) 1 1 = ⟨255, 0, 255⟩
    rw [rustRem_eval (120 + 180) 360 300 0
      (qtrunc_eq_of_nonneg ((120 + 180) / 360 : ℚ) 0 (by norm_num) (by norm_num) (by norm_num))
      (by norm_num)]
    exact from_hsv_at_300
  have step2 : hsv_complement (⟨255, 0, 255⟩ : Color) = ⟨0, 0, 255⟩ := by
    show from_hsv (rustRem ((to_hsv ⟨255, 0, 255⟩).1 + 180) 360) (to_hsv ⟨255, 0, 255⟩).2.1
        (to_hsv ⟨255, 0, 255⟩).2.2 = ⟨0, 0, 255⟩
    rw [to_hsv_magenta]
    show from_hsv (rustRem ((60 : ℚ) + 180) 360) 1 1 = ⟨0, 0, 255⟩
    rw [rustRem_eval (60 + 180) 360 240 0
      (qtrunc_eq_of_nonneg ((60 + 180) / 360 : ℚ) 0 (by norm_num) (by norm_num) (by norm_num))
      (by norm_num)]
    exact from_hsv_at_240
  rw [step1, step2]

/-- Claim C7 (confirmed): for every saturation and value, hue exactly 0 and
hue exactly 360 both select a red-dominant sextant arm — the red-primed
component is the chroma — and neither falls to the `(0, 0, 0)` fallback:
hue 0 takes the first arm `(c, x, 0)` and hue 360 the sixth arm `(c, 0, x)`. -/
theorem sextant_boundary_red (s v : ℚ) :
    sextant 0 (hsvChroma s v) (hsvX 0 s v) = (hsvChroma s v, hsvX 0 s v, 0) ∧
    sextant 360 (hsvChroma s v) (hsvX 360 s v) = (hsvChroma s v, 0, hsvX 360 s v) := by
  constructor <;> (unfold sextant; norm_num)

/-- Claim C8 (confirmed): the concrete scenario for pure red `(255, 0, 0)`:
its hex form is `"#FF0000"`, its RGB complement is cyan `(0, 255, 255)`,
its HSV form is `(0°, 1, 1)`, and its HSV complement is also cyan
`(0, 255, 255)`. -/
theorem red_concrete_scenario :
    to_hex (from_rgb 255 0 0) = "#FF0000".data ∧
    rgb_complement (from_rgb 255 0 0) = ⟨0, 255, 255⟩ ∧
    to_hsv (from_rgb 255 0 0) = (0, 1, 1) ∧
    hsv_complement (from_rgb 255 0 0) = ⟨0, 255, 255⟩ := by
  refine ⟨by decide, by decide, to_hsv_red, ?_⟩
  show from_hsv (rustRem ((to_hsv ⟨255, 0, 0⟩).1 + 180) 360) (to_hsv ⟨255, 0, 0⟩).2.1
      (to_hsv ⟨255, 0, 0⟩).2.2 = ⟨0, 255, 255⟩
  rw [to_hsv_red]
  show from_hsv (rustRem ((0 : ℚ) + 180) 360) 1 1 = ⟨0, 255, 255⟩
  rw [rustRem_eval (0 + 180) 360 180 0
    (qtrunc_eq_of_nonneg ((0 + 180) / 360 : ℚ) 0 (by norm_num) (by norm_num) (by norm_num))
    (by norm_num)]
  exact from_hsv_at_180

/-- Claim C9, counterexample: the 6-byte input `"aéaaa"` (whose second
character is two bytes long) passes the byte-length check, but the slice
`&hex[0..2]` ends inside the `'é'` character, so the source panics instead
of returning a value — modelled by `from_hex` returning `none`. -/
theorem from_hex_multibyte_panic :
    byteLen (stripHashes ("aéaaa".data)) = 6 ∧ from_hex ("aéaaa".data) = none := by decide

/-- Claim C9, amended: `from_hex` never panics on ASCII input — for every
string of ASCII characters it terminates with either a parsed color or an
error value.  (On non-ASCII input the byte slicing can fault, as the
counterexample shows, so the totality claim does not hold unrestricted.) -/
theorem from_hex_ascii_no_panic (s : List Char) (hs : ∀ c ∈ s, c.toNat < 128) :
    from_hex s ≠ none := by
  rw [from_hex_ascii hs]
  simp

/-- Witness for the amended claim C9 on the concrete ASCII input `"zz"`. -/
theorem from_hex_ascii_no_panic_witness :
    from_hex ("zz".data) ≠ none ∧
    from_hex ("zz".data) = some (Except.error "Hex code must be 6 characters long") :=
  ⟨from_hex_ascii_no_panic _ (by decide), by decide⟩

/-- Claim C10 (confirmed): `from_hsv` is total over the whole `f32` domain —
NaN, infinities and out-of-range saturation or value included — and every
stored channel lies in `[0, 255]`; moreover the final `as u8` cast
saturates: a finite product above 255 becomes 255, and a negative or NaN
product becomes 0. -/
theorem from_hsvF_total_saturating :
    (∀ h s v : F, (from_hsvF h s v).r ≤ 255 ∧ (from_hsvF h s v).g ≤ 255 ∧
      (from_hsvF h s v).b ≤ 255) ∧
    (∀ q : ℚ, 255 < q → castU8F (.fin q) = 255) ∧
    (∀ q : ℚ, q < 0 → castU8F (.fin q) = 0) ∧
    castU8F .nan = 0 := by
  refine ⟨?_, ?_, ?_, rfl⟩
  · intro h s v
    simp only [from_hsvF]
    exact ⟨castU8F_le _, castU8F_le _, castU8F_le _⟩
  · intro q hq
    show (min 255 (max 0 (qtrunc q))).toNat = 255
    have h0 : qtrunc q = ⌊q⌋ := by rw [qtrunc, if_pos (by linarith)]
    have h1 : (255 : ℤ) ≤ ⌊q⌋ := Int.le_floor.mpr (by push_cast; linarith)
    omega
  · intro q hq
    show (min 255 (max 0 (qtrunc q))).toNat = 0
    have h0 : qtrunc q = -⌊-q⌋ := by rw [qtrunc, if_neg (not_le.mpr hq)]
    have h1 : (0 : ℤ) ≤ ⌊-q⌋ := Int.floor_nonneg.mpr (by linarith)
    omega

/-- Witness for claim C10 at concrete inputs: a NaN hue with infinite
saturation still yields an in-range channel, an overflowing product
saturates to 255, and a negative product saturates to 0. -/
theorem from_hsvF_total_saturating_witness :
    (from_hsvF .nan (.inf true) (.fin (1/2))).r ≤ 255 ∧
    castU8F (.fin 300) = 255 ∧ castU8F (.fin (-3)) = 0 :=
  ⟨(from_hsvF_total_saturating.1 .nan (.inf true) (.fin (1/2))).1,
   from_hsvF_total_saturating.2.1 300 (by norm_num),
   from_hsvF_total_saturating.2.2.1 (-3) (by norm_num)⟩
